import Mathlib

/-!
Shallow embedding of the document ingestion and retrieval pipeline of
`src/cymbal_agent/tools/knowledge_search_tools.py` (and its copy in
`src/rag/tools/vector_search_tools.py`), together with proofs about the
chunker, identifier generation, provenance persistence, the retrieval
entry point and the upsert path.

Python strings are modelled as `List Char`, byte strings as `List Nat`
(each element a byte value), dictionaries as association lists in
insertion order with overwrite-in-place semantics, and calls to the
external services (storage listing/reading, embedding, the vector index)
as explicit function-valued parameters of the pipeline.
-/

namespace Parcel

/-! ### Chunking: `clean_text` and `chunk_text` -/

/-- Recursion of Python `s.split()`: split on runs of whitespace, dropping
empty pieces.  The fuel argument makes the recursion structural; any fuel of
at least `s.length` gives the same value (`pySplitGo_irrel`). -/
def pySplitGo : Nat → List Char → List (List Char)
  | 0, _ => []
  | _ + 1, [] => []
  | fuel + 1, c :: cs =>
    if c.isWhitespace then pySplitGo fuel cs
    else (c :: cs.takeWhile (fun x => !x.isWhitespace))
           :: pySplitGo fuel (cs.dropWhile (fun x => !x.isWhitespace))

/-- Python `s.split()`.  The whitespace test is modelled by
`Char.isWhitespace`. -/
def pySplit (s : List Char) : List (List Char) := pySplitGo s.length s

/-- Python `" ".join(pieces)`. -/
def joinSpace : List (List Char) → List Char
  | [] => []
  | [w] => w
  | w :: ws => w ++ ' ' :: joinSpace ws

/-- `clean_text`: `" ".join(s.split())` — collapse whitespace runs to single
spaces and trim. -/
def clean_text (s : List Char) : List Char := joinSpace (pySplit s)

/-- The loop of `chunk_text`, starting at position `i`:
`while i < n: end = min(i + chunk_chars, n); emit text[i:end];
 if end == n: break; i = max(end - overlap, i + 1)`.
The loop is rendered with a fuel argument so the function is structurally
recursive; `chunk_go_fuel_irrelevant` shows any fuel of at least
`text.length - i` gives the same value, which is the formal statement that
the source loop terminates (each iteration advances `i` by at least 1). -/
def chunk_go (text : List Char) (chunk_chars overlap : Nat) : Nat → Nat → List (List Char)
  | 0, _ => []
  | fuel + 1, i =>
    if i < text.length then
      let e := min (i + chunk_chars) text.length
      let w := (text.drop i).take (e - i)
      if e = text.length then [w]
      else w :: chunk_go text chunk_chars overlap fuel (max (e - overlap) (i + 1))
    else []

/-- `chunk_text(text, chunk_chars=1000, overlap=100)`: normalize, return `[]`
for empty normalized text, otherwise run the sliding-window loop from 0. -/
def chunk_text (text : List Char) (chunk_chars : Nat := 1000) (overlap : Nat := 100) :
    List (List Char) :=
  let t := clean_text text
  if t = [] then [] else chunk_go t chunk_chars overlap t.length 0

/-- Concatenation of a window list after removing the first `o` characters
of every window except the first — the reversal rule of the round-trip
claim.  `dropConcat o ws` is the tail part (every window with its first `o`
characters removed, concatenated). -/
def dropConcat (o : Nat) : List (List Char) → List Char
  | [] => []
  | w :: ws => w.drop o ++ dropConcat o ws

/-- Apply the reversal rule: keep the first window whole, drop the first
`o` characters of each later window, concatenate. -/
def reconstruct (o : Nat) : List (List Char) → List Char
  | [] => []
  | w :: ws => w ++ dropConcat o ws

/-! ### UTF-8 encoding and Python `bytes.decode("utf-8", errors="ignore")` -/

/-- UTF-8 encoding of one scalar value, as byte values. -/
def utf8EncodeChar (c : Char) : List Nat :=
  let n := c.toNat
  if n < 128 then [n]
  else if n < 2048 then [192 + n / 64, 128 + n % 64]
  else if n < 65536 then [224 + n / 4096, 128 + n / 64 % 64, 128 + n % 64]
  else [240 + n / 262144, 128 + n / 4096 % 64, 128 + n / 64 % 64, 128 + n % 64]

/-- UTF-8 encoding of a string (Python `s.encode("utf-8")`). -/
def utf8Encode (s : String) : List Nat := (s.data.map utf8EncodeChar).flatten

/-- A UTF-8 continuation byte: `0x80..0xBF`. -/
def contB (b : Nat) : Bool := 128 ≤ b && b < 192

/-- Allowed second byte after a three-byte lead (rules out overlong forms
after `0xE0` and surrogates after `0xED`). -/
def cont3ok (b b1 : Nat) : Bool :=
  if b = 224 then 160 ≤ b1 && b1 < 192
  else if b = 237 then 128 ≤ b1 && b1 < 160
  else contB b1

/-- Allowed second byte after a four-byte lead (rules out overlong forms
after `0xF0` and values beyond `U+10FFFF` after `0xF4`). -/
def cont4ok (b b1 : Nat) : Bool :=
  if b = 240 then 144 ≤ b1 && b1 < 192
  else if b = 244 then 128 ≤ b1 && b1 < 144
  else contB b1

/-- One decoding step of Python's UTF-8 decoder with `errors="ignore"`,
given the lead byte `b` and the bytes after it: how many bytes after the
lead are consumed, and the decoded code point when the sequence is valid
(`none` on a decoding error, whose bytes are silently dropped — the
maximal valid prefix of the sequence, as CPython skips it).  Reading past
the end of the input yields the out-of-range value 256, which fails every
continuation test, so a sequence truncated by the end of input is dropped
like any other invalid sequence. -/
def utf8Munch (b : Nat) (bs : List Nat) : Nat × Option Nat :=
  if b < 128 then (0, some b)
  else if 194 ≤ b ∧ b < 224 then
    if contB (bs.getD 0 256) then (1, some ((b - 192) * 64 + (bs.getD 0 256 - 128)))
    else (0, none)
  else if 224 ≤ b ∧ b < 240 then
    if cont3ok b (bs.getD 0 256) then
      if contB (bs.getD 1 256) then
        (2, some ((b - 224) * 4096 + (bs.getD 0 256 - 128) * 64 + (bs.getD 1 256 - 128)))
      else (1, none)
    else (0, none)
  else if 240 ≤ b ∧ b < 245 then
    if cont4ok b (bs.getD 0 256) then
      if contB (bs.getD 1 256) then
        if contB (bs.getD 2 256) then
          (3, some ((b - 240) * 262144 + (bs.getD 0 256 - 128) * 4096 +
            (bs.getD 1 256 - 128) * 64 + (bs.getD 2 256 - 128)))
        else (2, none)
      else (1, none)
    else (0, none)
  else (0, none)

/-- The decoding loop: each step consumes the lead byte plus however many
bytes `utf8Munch` consumed, emitting a character on success and nothing on
an ignored error.  Every step consumes at least one byte while the fuel
falls by exactly one, so fuel equal to the byte count never runs out. -/
def utf8DecodeLoop : Nat → List Nat → List Char
  | 0, _ => []
  | _ + 1, [] => []
  | fuel + 1, b :: bs =>
    match utf8Munch b bs with
    | (k, some cp) => Char.ofNat cp :: utf8DecodeLoop fuel (bs.drop k)
    | (k, none) => utf8DecodeLoop fuel (bs.drop k)

/-- Python `raw.decode("utf-8", errors="ignore")`: decode UTF-8, silently
dropping invalid byte sequences — no replacement character is ever
produced and no error is raised. -/
def utf8DecodeIgnore (bs : List Nat) : List Char := utf8DecodeLoop bs.length bs

/-- `read_gcs_text`: download an object's bytes (the download result is the
parameter) and return `raw.decode("utf-8", errors="ignore")`. -/
def read_gcs_text (raw : List Nat) : List Char := utf8DecodeIgnore raw

/-! ### Hex strings and byte helpers -/

/-- Lowercase hex digit for a value below 16. -/
def hexDigitChar (n : Nat) : Char :=
  if n < 10 then Char.ofNat (48 + n) else Char.ofNat (87 + n)

/-- Two lowercase hex digits of one byte. -/
def byteToHex (b : Nat) : List Char := [hexDigitChar (b / 16), hexDigitChar (b % 16)]

/-- Lowercase hex digest string of a byte list (Python `.hexdigest()`). -/
def bytesToHex (bs : List Nat) : List Char := (bs.map byteToHex).flatten

/-- Numeric value of one lowercase hex digit. -/
def hexVal (c : Char) : Nat := if c.toNat ≤ 57 then c.toNat - 48 else c.toNat - 87

/-- Parse pairs of hex digits back into bytes (the byte view of
`uuid.UUID(hex_string)`). -/
def hexPairsToBytes : List Char → List Nat
  | c1 :: c2 :: rest => (hexVal c1 * 16 + hexVal c2) :: hexPairsToBytes rest
  | _ => []

/-! ### SHA-1 and SHA-256 (for `uuid.uuid5` and `hashlib.sha256`)

32-bit words are naturals kept below `2 ^ 32` by explicit reduction. -/

/-- Reduce modulo `2 ^ 32`. -/
def w32 (x : Nat) : Nat := x % 4294967296

/-- Rotate a 32-bit word left by `n` bits. -/
def rotl32 (n x : Nat) : Nat := w32 (x * 2 ^ n) + x / 2 ^ (32 - n)

/-- Rotate a 32-bit word right by `n` bits. -/
def rotr32 (n x : Nat) : Nat := x / 2 ^ n + w32 (x * 2 ^ (32 - n))

/-- Big-endian bytes of a value, fixed width. -/
def beBytes : Nat → Nat → List Nat
  | 0, _ => []
  | k + 1, v => beBytes k (v / 256) ++ [v % 256]

/-- Merkle–Damgård padding shared by SHA-1 and SHA-256: append `0x80`, zero
bytes up to 56 mod 64, then the bit length on 8 big-endian bytes. -/
def mdPad (msg : List Nat) : List Nat :=
  msg ++ 128 :: List.replicate ((119 - msg.length % 64) % 64) 0
      ++ beBytes 8 (msg.length * 8)

/-- Big-endian 32-bit words from groups of 4 bytes. -/
def beWords : List Nat → List Nat
  | a :: b :: c :: d :: rest =>
      (a * 16777216 + b * 65536 + c * 256 + d) :: beWords rest
  | _ => []

/-- SHA-1 message-schedule extension: repeatedly append
`rotl1 (w[i-3] xor w[i-8] xor w[i-14] xor w[i-16])`. -/
def sha1Extend : Nat → List Nat → List Nat
  | 0, ws => ws
  | k + 1, ws =>
    let i := ws.length
    sha1Extend k (ws ++ [rotl32 1 (Nat.xor (Nat.xor (ws.getD (i - 3) 0) (ws.getD (i - 8) 0))
      (Nat.xor (ws.getD (i - 14) 0) (ws.getD (i - 16) 0)))])

/-- SHA-1 round function for round `t`. -/
def sha1F (t b c d : Nat) : Nat :=
  if t < 20 then Nat.lor (Nat.land b c) (Nat.land (4294967295 - b) d)
  else if t < 40 then Nat.xor (Nat.xor b c) d
  else if t < 60 then Nat.lor (Nat.lor (Nat.land b c) (Nat.land b d)) (Nat.land c d)
  else Nat.xor (Nat.xor b c) d

/-- SHA-1 round constant for round `t`. -/
def sha1K (t : Nat) : Nat :=
  if t < 20 then 1518500249 else if t < 40 then 1859775393
  else if t < 60 then 2400959708 else 3395469782

/-- The 80 SHA-1 rounds, folding over the extended schedule. -/
def sha1Rounds : Nat → Nat × Nat × Nat × Nat × Nat → List Nat → Nat × Nat × Nat × Nat × Nat
  | _, st, [] => st
  | t, (a, b, c, d, e), wt :: ws =>
      sha1Rounds (t + 1)
        (w32 (rotl32 5 a + sha1F t b c d + e + sha1K t + wt), a, rotl32 30 b, c, d) ws

/-- One SHA-1 block: extend the 16 words to 80, run the rounds, add the
result to the incoming state. -/
def sha1Compress (st : Nat × Nat × Nat × Nat × Nat) (ws : List Nat) :
    Nat × Nat × Nat × Nat × Nat :=
  let (a, b, c, d, e) := sha1Rounds 0 st (sha1Extend 64 ws)
  (w32 (st.1 + a), w32 (st.2.1 + b), w32 (st.2.2.1 + c), w32 (st.2.2.2.1 + d),
    w32 (st.2.2.2.2 + e))

/-- Process the padded message 64 bytes at a time (the fuel is any bound on
the number of remaining bytes). -/
def sha1Blocks : Nat → Nat × Nat × Nat × Nat × Nat → List Nat → Nat × Nat × Nat × Nat × Nat
  | 0, st, _ => st
  | _ + 1, st, [] => st
  | fuel + 1, st, l => sha1Blocks fuel (sha1Compress st (beWords (l.take 64))) (l.drop 64)

/-- SHA-1 digest (20 bytes) of a byte message. -/
def sha1 (msg : List Nat) : List Nat :=
  let p := mdPad msg
  let st := sha1Blocks p.length
    (1732584193, 4023233417, 2562383102, 271733878, 3285377520) p
  beBytes 4 st.1 ++ beBytes 4 st.2.1 ++ beBytes 4 st.2.2.1 ++
    beBytes 4 st.2.2.2.1 ++ beBytes 4 st.2.2.2.2

/-- The 64 SHA-256 round constants. -/
def sha256K : List Nat :=
  [1116352408, 1899447441, 3049323471, 3921009573, 961987163, 1508970993,
   2453635748, 2870763221, 3624381080, 310598401, 607225278, 1426881987,
   1925078388, 2162078206, 2614888103, 3248222580, 3835390401, 4022224774,
   264347078, 604807628, 770255983, 1249150122, 1555081692, 1996064986,
   2554220882, 2821834349, 2952996808, 3210313671, 3336571891, 3584528711,
   113926993, 338241895, 666307205, 773529912, 1294757372, 1396182291,
   1695183700, 1986661051, 2177026350, 2456956037, 2730485921, 2820302411,
   3259730800, 3345764771, 3516065817, 3600352804, 4094571909, 275423344,
   430227734, 506948616, 659060556, 883997877, 958139571, 1322822218,
   1537002063, 1747873779, 1955562222, 2024104815, 2227730452, 2361852424,
   2428436474, 2756734187, 3204031479, 3329325298]

/-- SHA-256 Σ₀. -/
def bsig0 (x : Nat) : Nat := Nat.xor (rotr32 2 x) (Nat.xor (rotr32 13 x) (rotr32 22 x))

/-- SHA-256 Σ₁. -/
def bsig1 (x : Nat) : Nat := Nat.xor (rotr32 6 x) (Nat.xor (rotr32 11 x) (rotr32 25 x))

/-- SHA-256 σ₀. -/
def ssig0 (x : Nat) : Nat := Nat.xor (rotr32 7 x) (Nat.xor (rotr32 18 x) (x / 8))

/-- SHA-256 σ₁. -/
def ssig1 (x : Nat) : Nat := Nat.xor (rotr32 17 x) (Nat.xor (rotr32 19 x) (x / 1024))

/-- SHA-256 message-schedule extension: repeatedly append
`ssig1 w[i-2] + w[i-7] + ssig0 w[i-15] + w[i-16]`. -/
def sha256Extend : Nat → List Nat → List Nat
  | 0, ws => ws
  | k + 1, ws =>
    let i := ws.length
    sha256Extend k (ws ++ [w32 (ssig1 (ws.getD (i - 2) 0) + ws.getD (i - 7) 0 +
      ssig0 (ws.getD (i - 15) 0) + ws.getD (i - 16) 0)])

/-- One SHA-256 round on the 8-word state list. -/
def sha256Round (st : List Nat) (k w : Nat) : List Nat :=
  match st with
  | [a, b, c, d, e, f, g, h] =>
    let t1 := w32 (h + bsig1 e + Nat.xor (Nat.land e f) (Nat.land (4294967295 - e) g) + k + w)
    let t2 := w32 (bsig0 a + Nat.xor (Nat.xor (Nat.land a b) (Nat.land a c)) (Nat.land b c))
    [w32 (t1 + t2), a, b, c, w32 (d + t1), e, f, g]
  | other => other

/-- The 64 SHA-256 rounds over the paired constants and schedule. -/
def sha256Rounds : List (Nat × Nat) → List Nat → List Nat
  | [], st => st
  | (k, w) :: rest, st => sha256Rounds rest (sha256Round st k w)

/-- One SHA-256 block. -/
def sha256Compress (st : List Nat) (ws : List Nat) : List Nat :=
  let fin := sha256Rounds (sha256K.zip (sha256Extend 48 ws)) st
  (st.zip fin).map (fun p => w32 (p.1 + p.2))

/-- Process the padded message 64 bytes at a time. -/
def sha256Blocks : Nat → List Nat → List Nat → List Nat
  | 0, st, _ => st
  | _ + 1, st, [] => st
  | fuel + 1, st, l => sha256Blocks fuel (sha256Compress st (beWords (l.take 64))) (l.drop 64)

/-- SHA-256 digest (32 bytes) of a byte message. -/
def sha256 (msg : List Nat) : List Nat :=
  let p := mdPad msg
  ((sha256Blocks p.length
      [1779033703, 3144134277, 1013904242, 2773480762,
       1359893119, 2600822924, 528734635, 1541459225] p).map (beBytes 4)).flatten

/-- `hashlib.sha256(data).hexdigest()`. -/
def sha256Hex (msg : List Nat) : List Char := bytesToHex (sha256 msg)

/-! ### UUIDs: `uuid.UUID(hex)` and `uuid.uuid5` -/

/-- Force the RFC 4122 version-5 and variant bits onto 16 digest bytes, as
the `uuid.UUID(bytes=..., version=5)` constructor does. -/
def setUuidVariantVersion (h : List Nat) : List Nat :=
  (h.set 6 (Nat.lor (Nat.land (h.getD 6 0) 15) 80)).set 8
    (Nat.lor (Nat.land (h.getD 8 0) 63) 128)

/-- The 16 bytes of `uuid.uuid5(ns, name)`: the first 16 bytes of
`sha1(ns.bytes + name.encode("utf-8"))` with version and variant forced. -/
def uuid5bytes (ns : List Nat) (name : String) : List Nat :=
  setUuidVariantVersion ((sha1 (ns ++ utf8Encode name)).take 16)

/-- `str(u)` for a UUID given by its 16 bytes: lowercase hex in the
8-4-4-4-12 grouping. -/
def uuidStr (bs : List Nat) : String :=
  let hx := bytesToHex bs
  ⟨hx.take 8 ++ '-' :: (hx.drop 8).take 4 ++ '-' :: (hx.drop 12).take 4 ++
    '-' :: (hx.drop 16).take 4 ++ '-' :: hx.drop 20⟩

/-- `stable_uuid(namespace, key) = str(uuid.uuid5(namespace, key))` —
deterministic ID from path+chunk_index so re-runs don't create duplicates. -/
def stable_uuid (ns : List Nat) (key : String) : String := uuidStr (uuid5bytes ns key)

/-- The namespace computed in `build_and_upsert`:
`ns = uuid.UUID(hashlib.sha256(gcs_prefix.encode("utf-8")).hexdigest()[0:32])`,
i.e. the UUID whose 16 bytes are read off the first 32 hex digits of the
SHA-256 digest of the ingestion root. -/
def ns_of (root : String) : List Nat :=
  hexPairsToBytes ((sha256Hex (utf8Encode root)).take 32)

/-- The per-chunk key string `f"{source}::chunk::{ordinal}"`. -/
def chunkKey (source : String) (i : Nat) : String :=
  source ++ "::chunk::" ++ toString i

/-! ### Retrieval: `_extract_content_from_response` and `retrieve_documents` -/

/-- One entry of `datapoint.restricts`.  The proto field called `namespace`
is rendered `nspace` because `namespace` is a Lean keyword. -/
structure Restriction where
  nspace : String
  allow_list : List String
deriving DecidableEq

/-- The part of a returned datapoint the extractor looks at:
`restricts` and `crowding_tag.crowding_attribute` (an absent or default
`crowding_tag` is the empty attribute string, which is falsy in Python). -/
structure DatapointView where
  restricts : List Restriction
  crowding_attribute : String
deriving DecidableEq

/-- One neighbor match. -/
structure Neighbor where
  datapoint : DatapointView
deriving DecidableEq

/-- One `nearest_neighbors` entry. -/
structure NeighborList where
  neighbors : List Neighbor
deriving DecidableEq

/-- A `find_neighbors` response. -/
structure FindResponse where
  nearest_neighbors : List NeighborList
deriving DecidableEq

/-- The `for restrict in match.datapoint.restricts` loop: first restriction
with namespace `"content"` and a non-empty allow list wins (Python then
breaks); no match leaves `content` falsy, modelled as `""`. -/
def restrictContent : List Restriction → String
  | [] => ""
  | r :: rest =>
    if r.nspace = "content" ∧ r.allow_list ≠ [] then r.allow_list.headD ""
    else restrictContent rest

/-- Content of one match: the restricts loop first; if that left a falsy
value, the crowding attribute when it is truthy and not `"0"`. -/
def matchContent (d : DatapointView) : String :=
  let c := restrictContent d.restricts
  if c = "" then
    if d.crowding_attribute ≠ "" ∧ d.crowding_attribute ≠ "0" then
      d.crowding_attribute
    else ""
  else c

/-- `_extract_content_from_response`: empty when there is no neighbor list or
the first list is empty; otherwise the truthy contents of the first list's
matches, in index order. -/
def extract_content_from_response (resp : FindResponse) : List String :=
  match resp.nearest_neighbors with
  | [] => []
  | nn0 :: _ =>
    if nn0.neighbors = [] then []
    else (nn0.neighbors.map (fun m => matchContent m.datapoint)).filter
           (fun s => decide (s ≠ ""))

/-- `retrieve_documents(query, num_results)`.  The two remote calls inside
the `try` block are parameters: `embedQuery` models
`embed_texts([query])[0]` and `search` models `_execute_vector_search`;
an `Except.error` on either is the exception path, which the function turns
into the `"Error retrieving documents: ..."` string. -/
def retrieve_documents (embedQuery : String → Except String (List Int))
    (search : List Int → Nat → Except String FindResponse)
    (query : String) (num_results : Nat := 5) : String :=
  match embedQuery query with
  | .error e => "Error retrieving documents: " ++ e
  | .ok qe =>
    match search qe num_results with
    | .error e => "Error retrieving documents: " ++ e
    | .ok resp =>
      let chunks := extract_content_from_response resp
      if chunks = [] then "No relevant documents found for the query."
      else String.intercalate "\n\n" chunks

/-! ### Provenance mapping, `upsert_docs` and `build_and_upsert`

Python dictionaries are association lists in insertion order; assignment
overwrites in place or appends (`pyInsert`), lookup is `pyGet`. -/

/-- Dictionary assignment `m[k] = v`. -/
def pyInsert {α : Type} : List (String × α) → String → α → List (String × α)
  | [], k, v => [(k, v)]
  | (k1, v1) :: rest, k, v =>
    if k1 = k then (k, v) :: rest else (k1, v1) :: pyInsert rest k v

/-- Dictionary lookup: `m[k]` / `m.get(k)`. -/
def pyGet {α : Type} : List (String × α) → String → Option α
  | [], _ => none
  | (k1, v1) :: rest, k => if k1 = k then some v1 else pyGet rest k

/-- A persisted provenance entry `{source, chunk_index, text}`. -/
structure ProvEntry where
  source : String
  chunk_index : Nat
  text : List Char
deriving DecidableEq

/-- The per-run provenance sidecar value `{src, i}`. -/
structure ProvMeta where
  src : String
  i : Nat
deriving DecidableEq

/-- The state of the mapping object at `mapping_uri`: absent
(`blob.exists()` false), unreadable (download or JSON parse raises), or a
readable stored mapping. -/
inductive StoredMapping where
  | absent
  | unreadable
  | present (m : List (String × ProvEntry))
deriving DecidableEq

/-- `load_mapping_from_gcs`: `{}` when the blob does not exist, `{}` when
reading or parsing raises (the `except` branch), otherwise the parsed
mapping. -/
def load_mapping_from_gcs : StoredMapping → List (String × ProvEntry)
  | .absent => []
  | .unreadable => []
  | .present m => m

/-- Errors a pipeline run can raise: the `NameError` on the undefined
globals in `upsert_docs`, or an exception out of `embed_texts`. -/
inductive PipeError where
  | nameError (n : String)
  | embedError (e : String)
deriving DecidableEq

deriving instance DecidableEq for Except

/-- `upsert_docs(index_resource_name, chunks)`.  Empty input returns `{}`
before any remote call.  Otherwise `embed_texts` runs first (its outcome is
the `embed` parameter); when it succeeds the function evaluates the global
name `IndexDatapoint` in the datapoint loop (or, when `zip` produced
nothing because the embedding list was empty, `MatchingEngineIndex` on the
index line), and neither name is defined or imported in the module, so the
call raises `NameError` before any upsert reaches the index.  The
`return {cid: txt for cid, txt in chunks}` line is unreachable for
non-empty input. -/
def upsert_docs (embed : List (List Char) → Except String (List (List Int)))
    (chunks : List (String × List Char)) : Except PipeError (List (String × List Char)) :=
  if chunks = [] then .ok []
  else
    match embed (chunks.map Prod.snd) with
    | .error e => .error (.embedError e)
    | .ok vecs =>
      if vecs = [] then .error (.nameError "MatchingEngineIndex")
      else .error (.nameError "IndexDatapoint")

/-- The external world a run sees: the file listing under a root
(`list_gcs_files`), the text extracted from each file (`read_gcs_text` /
`read_gcs_pdf_text`), the embedding service, and the stored mapping at
`mapping_uri`. -/
structure Env where
  files : String → List String
  fileText : String → List Char
  embed : List (List Char) → Except String (List (List Int))
  stored : StoredMapping

/-- Gathered chunk batch and provenance sidecar. -/
structure Gathered where
  to_upsert : List (String × List Char)
  provenance : List (String × ProvMeta)
deriving DecidableEq

/-- The `for i, ch in enumerate(chunks)` loop of `build_and_upsert`,
starting at ordinal `start`. -/
def gatherFile (ns : List Nat) (f : String) : List (List Char) → Nat → Gathered → Gathered
  | [], _, acc => acc
  | ch :: rest, start, acc =>
    let cid := stable_uuid ns (chunkKey f start)
    gatherFile ns f rest (start + 1)
      ⟨acc.to_upsert ++ [(cid, ch)], pyInsert acc.provenance cid ⟨f, start⟩⟩

/-- The body of the `for f in files` loop of `build_and_upsert`: extract
and chunk one file (`chunk_text(text, chunk_chars=1000, overlap=100)`),
skip it when no text came out (`continue`), otherwise assign each chunk
its stable identifier. -/
def gatherStep (fileText : String → List Char) (ns : List Nat) (acc : Gathered)
    (f : String) : Gathered :=
  let chunks := chunk_text (fileText f) 1000 100
  if chunks = [] then acc else gatherFile ns f chunks 0 acc

/-- The `for f in files` loop of `build_and_upsert`. -/
def gatherChunks (fileText : String → List Char) (files : List String) (ns : List Nat) :
    Gathered :=
  files.foldl (gatherStep fileText ns) ⟨[], []⟩

/-- The merge loop of `build_and_upsert`: for every provenance entry of the
run, `mapping[cid] = {"source": src, "chunk_index": i,
"text": id2text.get(cid, "")}` over the previously loaded mapping. -/
def mergeProvenance (mapping : List (String × ProvEntry))
    (prov : List (String × ProvMeta)) (id2text : List (String × List Char)) :
    List (String × ProvEntry) :=
  prov.foldl
    (fun m p => pyInsert m p.1 ⟨p.2.src, p.2.i, (pyGet id2text p.1).getD []⟩)
    mapping

/-- Observable outcome of one `build_and_upsert` run: the batch it built,
its provenance sidecar, the result (normal return or raised error), and the
mapping written to `mapping_uri` (`none` when the save line is never
reached). -/
structure RunResult where
  to_upsert : List (String × List Char)
  provenance : List (String × ProvMeta)
  result : Except PipeError Unit
  saved : Option (List (String × ProvEntry))
deriving DecidableEq

/-- `build_and_upsert(gcs_prefix, index_resource_name, mapping_uri)` over an
explicit environment.  Early returns on no files and on no chunks; then the
namespace is derived from the root, chunks are gathered, `upsert_docs` is
called, and only on its normal return is the merged mapping saved. -/
def build_and_upsert (env : Env) (root : String) : RunResult :=
  let files := env.files root
  if files = [] then ⟨[], [], .ok (), none⟩
  else
    let existing := load_mapping_from_gcs env.stored
    let ns := ns_of root
    let g := gatherChunks env.fileText files ns
    if g.to_upsert = [] then ⟨g.to_upsert, g.provenance, .ok (), none⟩
    else
      match upsert_docs env.embed g.to_upsert with
      | .error e => ⟨g.to_upsert, g.provenance, .error e, none⟩
      | .ok id2text =>
          ⟨g.to_upsert, g.provenance, .ok (),
            some (mergeProvenance existing g.provenance id2text)⟩

/-! ### Derived forms and concrete environments used in the statements -/

/-- The identifier/text pairs of one file's chunk list starting at ordinal
`k`: position `k + j` gets `stable_uuid ns (chunkKey f (k + j))`.  This is
the closed form that `gatherFile` is proved to produce. -/
def chunkIdsFrom (ns : List Nat) (f : String) : Nat → List (List Char) → List (String × List Char)
  | _, [] => []
  | k, ch :: rest => (stable_uuid ns (chunkKey f k), ch) :: chunkIdsFrom ns f (k + 1) rest

/-- Identifier/text pairs of a whole file, ordinals from 0. -/
def chunkIds (ns : List Nat) (f : String) (cs : List (List Char)) :
    List (String × List Char) :=
  chunkIdsFrom ns f 0 cs

/-- An embedding service that answers every request with one vector per
input. -/
def embedOk : List (List Char) → Except String (List (List Int)) :=
  fun ts => .ok (ts.map (fun _ => [0]))

/-- An embedding service whose call raises. -/
def embedFail : List (List Char) → Except String (List (List Int)) :=
  fun _ => .error "quota exceeded"

/-- A root with one readable text document and no stored mapping yet. -/
def envIdem : Env :=
  { files := fun _ => ["gs://bucket/docs/a.txt"]
    fileText := fun _ => String.toList "hello parcel care"
    embed := embedOk
    stored := .absent }

/-- A root with two readable text documents, an existing stored mapping,
and a failing embedding service. -/
def envTwoDocs : Env :=
  { files := fun _ => ["gs://bucket/docs/a.txt", "gs://bucket/docs/b.txt"]
    fileText := fun f =>
      if f = "gs://bucket/docs/a.txt" then String.toList "alpha doc"
      else String.toList "beta doc"
    embed := embedFail
    stored := .present [("old-id", ⟨"gs://bucket/docs/old.txt", 0, String.toList "old text"⟩)] }

/-! ## Theorems

### Whitespace splitting and `clean_text` -/

theorem pySplitGo_nil (f : Nat) : pySplitGo f [] = [] := by
  cases f <;> rfl

theorem pySplitGo_irrel : ∀ f1 : Nat, ∀ s : List Char, ∀ f2 : Nat,
    s.length ≤ f1 → s.length ≤ f2 → pySplitGo f1 s = pySplitGo f2 s := by
  intro f1
  induction f1 with
  | zero =>
    intro s f2 h1 h2
    have hs : s = [] := List.eq_nil_of_length_eq_zero (Nat.le_zero.mp h1)
    subst hs
    rw [pySplitGo_nil, pySplitGo_nil]
  | succ n ih =>
    intro s f2 h1 h2
    cases s with
    | nil => rw [pySplitGo_nil, pySplitGo_nil]
    | cons c cs =>
      cases f2 with
      | zero => simp at h2
      | succ m =>
        simp only [pySplitGo]
        by_cases hw : c.isWhitespace
        · rw [if_pos hw, if_pos hw]
          exact ih cs m (by simp at h1; omega) (by simp at h2; omega)
        · rw [if_neg hw, if_neg hw]
          congr 1
          have hd := (List.dropWhile_sublist (l := cs) (fun x => !x.isWhitespace)).length_le
          have hc1 : cs.length ≤ n := by simp at h1; omega
          have hc2 : cs.length ≤ m := by simp at h2; omega
          exact ih _ m (le_trans hd hc1) (le_trans hd hc2)

theorem pySplit_cons_ws {c : Char} (cs : List Char) (h : c.isWhitespace = true) :
    pySplit (c :: cs) = pySplit cs := by
  show pySplitGo (c :: cs).length (c :: cs) = pySplitGo cs.length cs
  simp only [List.length_cons, pySplitGo, if_pos h]

theorem pySplit_cons_not_ws {c : Char} (cs : List Char) (h : ¬ c.isWhitespace = true) :
    pySplit (c :: cs) =
      (c :: cs.takeWhile (fun x => !x.isWhitespace)) ::
        pySplit (cs.dropWhile (fun x => !x.isWhitespace)) := by
  show pySplitGo (c :: cs).length (c :: cs) = _
  simp only [List.length_cons, pySplitGo, if_neg h]
  congr 1
  exact pySplitGo_irrel cs.length _ _ ((List.dropWhile_sublist _).length_le) (le_refl _)

theorem dropWhile_head_false {p : Char → Bool} :
    ∀ l : List Char, ∀ d : Char, ∀ r : List Char, l.dropWhile p = d :: r → p d = false := by
  intro l
  induction l with
  | nil => intro d r h; simp [List.dropWhile_nil] at h
  | cons a as ih =>
    intro d r h
    rw [List.dropWhile_cons] at h
    by_cases hp : p a
    · rw [if_pos hp] at h; exact ih d r h
    · rw [if_neg hp] at h
      injection h with h1 _
      subst h1
      simpa using hp

theorem joinSpace_cons_cons (w v : List Char) (ws : List (List Char)) :
    joinSpace (w :: v :: ws) = w ++ ' ' :: joinSpace (v :: ws) := rfl

theorem joinSpace_cons_le (w : List Char) (L : List (List Char)) :
    (joinSpace (w :: L)).length ≤ w.length + 1 + (joinSpace L).length := by
  cases L with
  | nil => simp [joinSpace]
  | cons v ws => rw [joinSpace_cons_cons]; simp; omega

theorem clean_text_length_le_fuel : ∀ fuel : Nat, ∀ s : List Char, s.length ≤ fuel →
    (clean_text s).length ≤ s.length := by
  intro fuel
  induction fuel with
  | zero =>
    intro s h
    have hs : s = [] := List.eq_nil_of_length_eq_zero (Nat.le_zero.mp h)
    subst hs
    simp [clean_text, pySplit, pySplitGo, joinSpace]
  | succ n ih =>
    intro s h
    cases s with
    | nil => simp [clean_text, pySplit, pySplitGo, joinSpace]
    | cons c cs =>
      by_cases hw : c.isWhitespace
      · have hcs := ih cs (by simp at h; omega)
        unfold clean_text at hcs ⊢
        rw [pySplit_cons_ws cs hw]
        calc (joinSpace (pySplit cs)).length ≤ cs.length := hcs
          _ ≤ (c :: cs).length := by simp
      · unfold clean_text
        rw [pySplit_cons_not_ws cs hw]
        have hlen : (cs.takeWhile (fun x => !x.isWhitespace)).length +
            (cs.dropWhile (fun x => !x.isWhitespace)).length = cs.length := by
          rw [← List.length_append,
            List.takeWhile_append_dropWhile (p := fun x => !x.isWhitespace) (l := cs)]
        cases hrc : cs.dropWhile (fun x => !x.isWhitespace) with
        | nil =>
          show (joinSpace [c :: cs.takeWhile (fun x => !x.isWhitespace)]).length ≤ _
          simp [joinSpace]
          rw [hrc] at hlen
          simp at hlen
          omega
        | cons d r2 =>
          have hd : d.isWhitespace = true := by
            have hdw := dropWhile_head_false cs d r2 hrc
            simpa using hdw
          rw [pySplit_cons_ws r2 hd]
          have hb := joinSpace_cons_le (c :: cs.takeWhile (fun x => !x.isWhitespace))
            (pySplit r2)
          have ihr : (joinSpace (pySplit r2)).length ≤ r2.length := by
            have hr2 : r2.length ≤ n := by
              rw [hrc] at hlen
              simp at h
              simp at hlen
              omega
            have hres := ih r2 hr2
            unfold clean_text at hres
            exact hres
          rw [hrc] at hlen
          simp at hlen hb ⊢
          omega

theorem clean_text_length_le (s : List Char) : (clean_text s).length ≤ s.length :=
  clean_text_length_le_fuel s.length s (le_refl _)

/-! ### The chunking loop -/

theorem chunk_go_zero (t : List Char) (c o i : Nat) : chunk_go t c o 0 i = [] := rfl

theorem chunk_go_stop (t : List Char) (c o : Nat) (fuel i : Nat) (h : t.length ≤ i) :
    chunk_go t c o fuel i = [] := by
  cases fuel with
  | zero => rfl
  | succ n =>
    simp only [chunk_go]
    rw [if_neg (by omega)]

theorem chunk_go_last (t : List Char) (c o fuel i : Nat) (hi : i < t.length)
    (he : min (i + c) t.length = t.length) :
    chunk_go t c o (fuel + 1) i = [(t.drop i).take (min (i + c) t.length - i)] := by
  simp only [chunk_go]
  rw [if_pos hi, if_pos he]

theorem chunk_go_step (t : List Char) (c o fuel i : Nat) (hi : i < t.length)
    (he : ¬ min (i + c) t.length = t.length) :
    chunk_go t c o (fuel + 1) i =
      (t.drop i).take (min (i + c) t.length - i) ::
        chunk_go t c o fuel (max (min (i + c) t.length - o) (i + 1)) := by
  simp only [chunk_go]
  rw [if_pos hi, if_neg he]

theorem chunk_go_irrel (t : List Char) (c o : Nat) : ∀ f1 i f2 : Nat,
    t.length - i ≤ f1 → t.length - i ≤ f2 →
    chunk_go t c o f1 i = chunk_go t c o f2 i := by
  intro f1
  induction f1 with
  | zero =>
    intro i f2 h1 h2
    rw [chunk_go_zero, chunk_go_stop t c o f2 i (by omega)]
  | succ n ih =>
    intro i f2 h1 h2
    by_cases hi : i < t.length
    · cases f2 with
      | zero => exact absurd h2 (by omega)
      | succ m =>
        by_cases he : min (i + c) t.length = t.length
        · rw [chunk_go_last t c o n i hi he, chunk_go_last t c o m i hi he]
        · rw [chunk_go_step t c o n i hi he, chunk_go_step t c o m i hi he]
          congr 1
          have hmax : i + 1 ≤ max (min (i + c) t.length - o) (i + 1) := le_max_right _ _
          exact ih _ m (by omega) (by omega)
    · rw [chunk_go_stop t c o _ i (by omega), chunk_go_stop t c o _ i (by omega)]

theorem chunk_go_window_le (t : List Char) (c o : Nat) : ∀ fuel i : Nat,
    t.length - i ≤ fuel →
    ∀ w ∈ chunk_go t c o fuel i, w.length ≤ c := by
  intro fuel
  induction fuel with
  | zero =>
    intro i h w hw
    rw [chunk_go_zero] at hw
    exact absurd hw (by simp)
  | succ n ih =>
    intro i h w hw
    by_cases hi : i < t.length
    · by_cases he : min (i + c) t.length = t.length
      · rw [chunk_go_last t c o n i hi he] at hw
        simp at hw
        subst hw
        simp only [List.length_take, List.length_drop]
        omega
      · rw [chunk_go_step t c o n i hi he] at hw
        rcases List.mem_cons.mp hw with hw0 | hwrest
        · subst hw0
          simp only [List.length_take, List.length_drop]
          omega
        · have hmax : i + 1 ≤ max (min (i + c) t.length - o) (i + 1) := le_max_right _ _
          exact ih (max (min (i + c) t.length - o) (i + 1)) (by omega) w hwrest
    · rw [chunk_go_stop t c o _ i (by omega)] at hw
      exact absurd hw (by simp)

theorem chunk_go_window_eq (t : List Char) (c o : Nat) : ∀ fuel i : Nat,
    t.length - i ≤ fuel →
    ∀ w ∈ (chunk_go t c o fuel i).dropLast, w.length = c := by
  intro fuel
  induction fuel with
  | zero =>
    intro i h w hw
    rw [chunk_go_zero] at hw
    exact absurd hw (by simp)
  | succ n ih =>
    intro i h w hw
    by_cases hi : i < t.length
    · by_cases he : min (i + c) t.length = t.length
      · rw [chunk_go_last t c o n i hi he] at hw
        exact absurd hw (by simp)
      · rw [chunk_go_step t c o n i hi he] at hw
        have hmax : i + 1 ≤ max (min (i + c) t.length - o) (i + 1) := le_max_right _ _
        cases hrest : chunk_go t c o n (max (min (i + c) t.length - o) (i + 1)) with
        | nil =>
          rw [hrest] at hw
          exact absurd hw (by simp)
        | cons r rs =>
          rw [hrest, List.dropLast_cons_of_ne_nil (by simp)] at hw
          rcases List.mem_cons.mp hw with hw0 | hwrest
          · subst hw0
            simp only [List.length_take, List.length_drop]
            omega
          · have := ih (max (min (i + c) t.length - o) (i + 1)) (by omega) w
            rw [hrest] at this
            exact this hwrest
    · rw [chunk_go_stop t c o _ i (by omega)] at hw
      exact absurd hw (by simp)

theorem chunk_go_count (t : List Char) (c o : Nat) : ∀ fuel i : Nat,
    t.length - i ≤ fuel →
    (chunk_go t c o fuel i).length ≤
      (t.length - i + max 1 (c - o) - 1) / max 1 (c - o) := by
  intro fuel
  induction fuel with
  | zero => intro i h; simp [chunk_go_zero]
  | succ n ih =>
    intro i h
    have hd1 : 1 ≤ max 1 (c - o) := le_max_left _ _
    by_cases hi : i < t.length
    · by_cases he : min (i + c) t.length = t.length
      · rw [chunk_go_last t c o n i hi he]
        simp only [List.length_cons, List.length_nil]
        rw [Nat.le_div_iff_mul_le (by omega)]
        omega
      · rw [chunk_go_step t c o n i hi he]
        have hiprime : max (min (i + c) t.length - o) (i + 1) = i + max 1 (c - o) := by
          omega
        rw [hiprime]
        simp only [List.length_cons]
        by_cases hin : i + max 1 (c - o) < t.length
        · have ihb := ih (i + max 1 (c - o)) (by omega)
          have harith : t.length - (i + max 1 (c - o)) + max 1 (c - o) - 1 =
              t.length - i - 1 := by omega
          rw [harith] at ihb
          have hstep : (t.length - i - 1) / max 1 (c - o) + 1 =
              (t.length - i + max 1 (c - o) - 1) / max 1 (c - o) := by
            rw [← Nat.add_div_right _ (by omega : 0 < max 1 (c - o))]
            congr 1
            omega
          omega
        · rw [chunk_go_stop t c o n (i + max 1 (c - o)) (by omega)]
          simp only [List.length_nil]
          rw [Nat.le_div_iff_mul_le (by omega)]
          omega
    · rw [chunk_go_stop t c o _ i (by omega)]
      simp

theorem dropConcat_chunk_go (t : List Char) (c o : Nat) (ho : o < c) : ∀ fuel i : Nat,
    t.length - i ≤ fuel →
    dropConcat o (chunk_go t c o fuel i) = t.drop (i + o) := by
  intro fuel
  induction fuel with
  | zero =>
    intro i h
    rw [chunk_go_zero, dropConcat]
    exact (List.drop_eq_nil_of_le (by omega)).symm
  | succ n ih =>
    intro i h
    by_cases hi : i < t.length
    · by_cases he : min (i + c) t.length = t.length
      · rw [chunk_go_last t c o n i hi he, dropConcat, dropConcat, List.append_nil]
        have htake : min (i + c) t.length - i = (t.drop i).length := by
          simp only [List.length_drop]
          omega
        rw [htake, List.take_length, List.drop_drop]
      · rw [chunk_go_step t c o n i hi he, dropConcat]
        have hmin : min (i + c) t.length = i + c := by omega
        have hiprime : max (min (i + c) t.length - o) (i + 1) = i + (c - o) := by omega
        rw [hiprime, ih (i + (c - o)) (by omega), hmin]
        have h1 : i + c - i = c := by omega
        have h2 : i + (c - o) + o = i + c := by omega
        rw [h1, h2, List.drop_take, List.drop_drop]
        have h3 : t.drop (i + c) = (t.drop (i + o)).drop (c - o) := by
          rw [List.drop_drop]
          congr 1
          omega
        rw [h3, List.take_append_drop]
    · rw [chunk_go_stop t c o _ i (by omega), dropConcat]
      exact (List.drop_eq_nil_of_le (by omega)).symm

theorem reconstruct_chunk_go (t : List Char) (c o : Nat) (ho : o < c) : ∀ fuel i : Nat,
    t.length - i ≤ fuel → i < t.length →
    reconstruct o (chunk_go t c o fuel i) = t.drop i := by
  intro fuel i h hi
  cases fuel with
  | zero => exact absurd h (by omega)
  | succ n =>
    by_cases he : min (i + c) t.length = t.length
    · rw [chunk_go_last t c o n i hi he, reconstruct, dropConcat, List.append_nil]
      have htake : min (i + c) t.length - i = (t.drop i).length := by
        simp only [List.length_drop]
        omega
      rw [htake, List.take_length]
    · rw [chunk_go_step t c o n i hi he, reconstruct]
      have hmin : min (i + c) t.length = i + c := by omega
      have hiprime : max (min (i + c) t.length - o) (i + 1) = i + (c - o) := by omega
      rw [hiprime, dropConcat_chunk_go t c o ho n (i + (c - o)) (by omega), hmin]
      have h1 : i + c - i = c := by omega
      have h2 : i + (c - o) + o = i + c := by omega
      rw [h1, h2]
      have h3 : t.drop (i + c) = (t.drop i).drop c := by
        rw [List.drop_drop]
      rw [h3, List.take_append_drop]

/-! ### Claim theorems about the chunker -/

/-- C2: for every text and chunk size `c > 0`, every window of
`chunk_text` has at most `c` characters, every window except the final one
(the list with its last element dropped) has exactly `c` characters, an
empty normalized text gives the empty window list, and
`chunk_text("abcdefghij", 4, 1) = ["abcd", "defg", "ghij"]`. -/
theorem chunk_text_window_sizes (text : List Char) (c o : Nat) (hc : 0 < c) :
    (∀ w ∈ chunk_text text c o, w.length ≤ c) ∧
    (∀ w ∈ (chunk_text text c o).dropLast, w.length = c) ∧
    (clean_text text = [] → chunk_text text c o = []) ∧
    chunk_text (String.toList "abcdefghij") 4 1 =
      [String.toList "abcd", String.toList "defg", String.toList "ghij"] := by
  refine ⟨?_, ?_, ?_, by decide⟩
  · intro w hw
    simp only [chunk_text] at hw
    by_cases h0 : clean_text text = []
    · rw [if_pos h0] at hw
      exact absurd hw (by simp)
    · rw [if_neg h0] at hw
      exact chunk_go_window_le (clean_text text) c o _ 0 (by omega) w hw
  · intro w hw
    simp only [chunk_text] at hw
    by_cases h0 : clean_text text = []
    · rw [if_pos h0] at hw
      exact absurd hw (by simp)
    · rw [if_neg h0] at hw
      exact chunk_go_window_eq (clean_text text) c o _ 0 (by omega) w hw
  · intro h0
    simp only [chunk_text]
    rw [if_pos h0]

theorem chunk_text_window_sizes_witness :
    (0 : Nat) < 4 ∧
    chunk_text (String.toList "abcdefghij") 4 1 =
      [String.toList "abcd", String.toList "defg", String.toList "ghij"] :=
  ⟨by decide, (chunk_text_window_sizes (String.toList "abcdefghij") 4 1 (by decide)).2.2.2⟩

/-- C3: the chunking loop terminates on every input — rendered as fuel
irrelevance: any two fuels at least as large as the remaining length give
the same window list (each iteration advances the position by at least 1,
also when `overlap ≥ chunk_chars`) — and the number of windows is at most
`ceil(len(text) / max(1, chunk_chars - overlap))`, written with the
original (pre-normalization) length as in the claim. -/
theorem chunk_text_terminates_and_bound (text : List Char) (c o : Nat) :
    (∀ f1 f2 i : Nat, (clean_text text).length - i ≤ f1 →
        (clean_text text).length - i ≤ f2 →
        chunk_go (clean_text text) c o f1 i = chunk_go (clean_text text) c o f2 i) ∧
    (chunk_text text c o).length ≤
      (text.length + max 1 (c - o) - 1) / max 1 (c - o) := by
  constructor
  · intro f1 f2 i h1 h2
    exact chunk_go_irrel _ c o f1 i f2 h1 h2
  · simp only [chunk_text]
    by_cases h0 : clean_text text = []
    · rw [if_pos h0]
      simp
    · rw [if_neg h0]
      have hb := chunk_go_count (clean_text text) c o (clean_text text).length 0 (by omega)
      have hm : (clean_text text).length - 0 + max 1 (c - o) - 1 ≤
          text.length + max 1 (c - o) - 1 := by
        have := clean_text_length_le text
        omega
      calc (chunk_go (clean_text text) c o (clean_text text).length 0).length
          ≤ _ := hb
        _ ≤ _ := Nat.div_le_div_right hm

theorem chunk_text_terminates_and_bound_witness :
    chunk_go (clean_text (String.toList "abc")) 2 0 5 0 =
      chunk_go (clean_text (String.toList "abc")) 2 0 3 0 ∧
    (chunk_text (String.toList "abc") 2 0).length ≤
      ((String.toList "abc").length + max 1 (2 - 0) - 1) / max 1 (2 - 0) :=
  ⟨(chunk_text_terminates_and_bound (String.toList "abc") 2 0).1 5 3 0
      (by decide) (by decide),
   (chunk_text_terminates_and_bound (String.toList "abc") 2 0).2⟩

/-- C4 counterexample: the claim as stated — removing the first `o`
characters of every window but the first and concatenating reconstructs
the original text `T` — fails at `T = "a  b"`, `chunk_size = 1000`,
`overlap = 100`: `chunk_text` normalizes whitespace first, so the double
space cannot be recovered. -/
theorem chunk_reconstruct_counterexample :
    ¬ reconstruct 100 (chunk_text (String.toList "a  b") 1000 100) =
      String.toList "a  b" := by decide

/-- C4 amended: for `o < c` the reversal rule reconstructs the
whitespace-normalized text `clean_text T` exactly (not `T` itself). -/
theorem chunk_reconstruct_normalized (text : List Char) (c o : Nat) (ho : o < c) :
    reconstruct o (chunk_text text c o) = clean_text text := by
  simp only [chunk_text]
  by_cases h0 : clean_text text = []
  · rw [if_pos h0, reconstruct]
    exact h0.symm
  · rw [if_neg h0]
    have hlen : 0 < (clean_text text).length := List.length_pos.mpr h0
    rw [reconstruct_chunk_go (clean_text text) c o ho (clean_text text).length 0
      (by omega) (by omega)]
    simp

theorem chunk_reconstruct_normalized_witness :
    reconstruct 1 (chunk_text (String.toList "abcdefghij") 4 1) =
      clean_text (String.toList "abcdefghij") :=
  chunk_reconstruct_normalized (String.toList "abcdefghij") 4 1 (by decide)

/-! ### Claim theorems about text extraction (decoding) -/

/-- C9 counterexample: the source decodes with `errors="ignore"`, not
`errors="replace"`: on the invalid byte sequence `[0x61, 0xFF, 0x62]`
extraction returns `"ab"` — the invalid byte is silently dropped and no
replacement character U+FFFD appears in the output, contrary to the
claim. -/
theorem read_gcs_text_replacement_counterexample :
    read_gcs_text [97, 255, 98] = String.toList "ab" ∧
    ¬ Char.ofNat 65533 ∈ read_gcs_text [97, 255, 98] := by decide

/-- C9 amended: for a text source whose bytes are not valid UTF-8,
extraction does not raise (the decoder is a total function) and returns the
decoded content with the invalid byte sequences silently dropped rather
than replaced: an invalid lead byte `0xFF` is skipped and decoding resumes
with the remaining bytes, while a valid ASCII byte decodes to its
character. -/
theorem read_gcs_text_drops_invalid (bs : List Nat) (b : Nat) (hb : b < 128) :
    read_gcs_text (255 :: bs) = read_gcs_text bs ∧
    read_gcs_text (b :: bs) = Char.ofNat b :: read_gcs_text bs := by
  constructor
  · rfl
  · show utf8DecodeLoop (b :: bs).length (b :: bs) =
      Char.ofNat b :: utf8DecodeLoop bs.length bs
    have hm : utf8Munch b bs = (0, some b) := by
      simp only [utf8Munch, if_pos hb]
    simp only [List.length_cons, utf8DecodeLoop, hm, List.drop_zero]

theorem read_gcs_text_drops_invalid_witness :
    read_gcs_text (255 :: [97]) = read_gcs_text [97] ∧
    read_gcs_text (97 :: [97]) = Char.ofNat 97 :: read_gcs_text [97] :=
  read_gcs_text_drops_invalid [97] 97 (by decide)

/-! ### Claim theorems about retrieval -/

/-- C7: `retrieve_documents` never raises — every outcome is a string: a
failed embedding call or a failed index query produces the string
`"Error retrieving documents: "` followed by the exception text; a
successful query whose response yields no extractable content produces the
fixed non-empty string `"No relevant documents found for the query."`; and
otherwise the extracted chunks are joined with `"\n\n"` in the order given
by the index. -/
theorem retrieve_documents_spec (emb : String → Except String (List Int))
    (search : List Int → Nat → Except String FindResponse) (q : String) (k : Nat) :
    (∀ e, emb q = .error e →
      retrieve_documents emb search q k = "Error retrieving documents: " ++ e) ∧
    (∀ v e, emb q = .ok v → search v k = .error e →
      retrieve_documents emb search q k = "Error retrieving documents: " ++ e) ∧
    (∀ v resp, emb q = .ok v → search v k = .ok resp →
      extract_content_from_response resp = [] →
      retrieve_documents emb search q k = "No relevant documents found for the query.") ∧
    (∀ v resp, emb q = .ok v → search v k = .ok resp →
      extract_content_from_response resp ≠ [] →
      retrieve_documents emb search q k =
        String.intercalate "\n\n" (extract_content_from_response resp)) := by
  refine ⟨?_, ?_, ?_, ?_⟩
  · intro e he
    simp [retrieve_documents, he]
  · intro v e hv hs
    simp [retrieve_documents, hv, hs]
  · intro v resp hv hs hx
    simp [retrieve_documents, hv, hs, hx]
  · intro v resp hv hs hx
    simp [retrieve_documents, hv, hs, hx]

theorem retrieve_documents_spec_witness :
    retrieve_documents (fun _ => .error "boom") (fun _ _ => .ok ⟨[]⟩) "q" 5 =
      "Error retrieving documents: " ++ "boom" ∧
    retrieve_documents (fun _ => .ok [1]) (fun _ _ => .error "down") "q" 5 =
      "Error retrieving documents: " ++ "down" ∧
    retrieve_documents (fun _ => .ok [1]) (fun _ _ => .ok ⟨[]⟩) "q" 5 =
      "No relevant documents found for the query." ∧
    retrieve_documents (fun _ => .ok [1])
      (fun _ _ => .ok ⟨[⟨[⟨⟨[⟨"content", ["hello"]⟩], ""⟩⟩]⟩]⟩) "q" 5 =
      String.intercalate "\n\n"
        (extract_content_from_response ⟨[⟨[⟨⟨[⟨"content", ["hello"]⟩], ""⟩⟩]⟩]⟩) :=
  ⟨(retrieve_documents_spec _ _ "q" 5).1 "boom" rfl,
   (retrieve_documents_spec _ _ "q" 5).2.1 [1] "down" rfl rfl,
   (retrieve_documents_spec _ _ "q" 5).2.2.1 [1] ⟨[]⟩ rfl rfl rfl,
   (retrieve_documents_spec _ _ "q" 5).2.2.2 [1] _ rfl rfl (by decide)⟩

/-! ### Dictionary and provenance-merge lemmas -/

theorem pyGet_pyInsert_self {α : Type} (m : List (String × α)) (k : String) (v : α) :
    pyGet (pyInsert m k v) k = some v := by
  induction m with
  | nil => simp [pyInsert, pyGet]
  | cons p rest ih =>
    obtain ⟨k1, v1⟩ := p
    simp only [pyInsert]
    by_cases h : k1 = k
    · rw [if_pos h]
      simp [pyGet]
    · rw [if_neg h]
      simp only [pyGet]
      rw [if_neg h]
      exact ih

theorem pyGet_pyInsert_other {α : Type} (m : List (String × α)) (k k2 : String) (v : α)
    (hne : k2 ≠ k) : pyGet (pyInsert m k v) k2 = pyGet m k2 := by
  have hne2 : ¬ k = k2 := fun h => hne h.symm
  induction m with
  | nil =>
    simp only [pyInsert, pyGet]
    rw [if_neg hne2]
  | cons p rest ih =>
    obtain ⟨k1, v1⟩ := p
    simp only [pyInsert]
    by_cases h : k1 = k
    · rw [if_pos h]
      simp only [pyGet]
      rw [if_neg hne2, if_neg (fun hk => hne2 (h ▸ hk))]
    · rw [if_neg h]
      simp only [pyGet]
      by_cases h2 : k1 = k2
      · rw [if_pos h2, if_pos h2]
      · rw [if_neg h2, if_neg h2]
        exact ih

theorem mergeProvenance_untouched : ∀ prov : List (String × ProvMeta),
    ∀ m : List (String × ProvEntry), ∀ id2 : List (String × List Char), ∀ k : String,
    (∀ p ∈ prov, p.1 ≠ k) →
    pyGet (mergeProvenance m prov id2) k = pyGet m k := by
  intro prov
  induction prov with
  | nil => intro m id2 k _; rfl
  | cons p rest ih =>
    intro m id2 k h
    show pyGet (mergeProvenance
      (pyInsert m p.1 ⟨p.2.src, p.2.i, (pyGet id2 p.1).getD []⟩) rest id2) k = pyGet m k
    rw [ih _ id2 k (fun q hq => h q (List.mem_cons_of_mem _ hq))]
    exact pyGet_pyInsert_other m p.1 k _ (Ne.symm (h p (List.mem_cons_self _ _)))

theorem mergeProvenance_keeps : ∀ prov : List (String × ProvMeta),
    ∀ m : List (String × ProvEntry), ∀ id2 : List (String × List Char), ∀ k : String,
    (pyGet m k).isSome = true →
    (pyGet (mergeProvenance m prov id2) k).isSome = true := by
  intro prov
  induction prov with
  | nil => intro m id2 k h; exact h
  | cons p rest ih =>
    intro m id2 k h
    show (pyGet (mergeProvenance
      (pyInsert m p.1 ⟨p.2.src, p.2.i, (pyGet id2 p.1).getD []⟩) rest id2) k).isSome = true
    apply ih
    by_cases hk : k = p.1
    · subst hk
      rw [pyGet_pyInsert_self]
      rfl
    · rw [pyGet_pyInsert_other m p.1 k _ hk]
      exact h

theorem mergeProvenance_run_key : ∀ prov : List (String × ProvMeta),
    ∀ m : List (String × ProvEntry), ∀ id2 : List (String × List Char), ∀ k : String,
    (∃ p ∈ prov, p.1 = k) →
    ∃ meta : ProvMeta, (k, meta) ∈ prov ∧
      pyGet (mergeProvenance m prov id2) k =
        some ⟨meta.src, meta.i, (pyGet id2 k).getD []⟩ := by
  intro prov
  induction prov with
  | nil => intro m id2 k h; exact absurd h (by simp)
  | cons p rest ih =>
    intro m id2 k h
    by_cases hrest : ∃ q ∈ rest, q.1 = k
    · obtain ⟨meta, hmem, heq⟩ :=
        ih (pyInsert m p.1 ⟨p.2.src, p.2.i, (pyGet id2 p.1).getD []⟩) id2 k hrest
      exact ⟨meta, List.mem_cons_of_mem _ hmem, heq⟩
    · have hp : p.1 = k := by
        rcases h with ⟨q, hq, hqk⟩
        rcases List.mem_cons.mp hq with rfl | hqrest
        · exact hqk
        · exact absurd ⟨q, hqrest, hqk⟩ hrest
      refine ⟨p.2, ?_, ?_⟩
      · rw [← hp]
        exact List.mem_cons_self _ _
      · show pyGet (mergeProvenance
          (pyInsert m p.1 ⟨p.2.src, p.2.i, (pyGet id2 p.1).getD []⟩) rest id2) k = _
        rw [mergeProvenance_untouched rest _ id2 k
          (fun q hq hqk => hrest ⟨q, hq, hqk⟩), hp]
        exact pyGet_pyInsert_self m k _

/-- C6: provenance loading yields the empty mapping both when the stored
mapping is absent and when it is unreadable (the function is total: it
never raises), and the merge step of an ingestion run is monotone: every
key of the previously loaded mapping is still bound after the merge, keys
outside the current run's identifiers keep their exact previous entries,
and each of the run's identifiers is bound to that run's
`{source, chunk_index, text}` entry (for the matching provenance record). -/
theorem provenance_load_and_merge_monotone :
    (load_mapping_from_gcs .absent = [] ∧ load_mapping_from_gcs .unreadable = []) ∧
    (∀ m prov id2 k, (pyGet m k).isSome = true →
      (pyGet (mergeProvenance m prov id2) k).isSome = true) ∧
    (∀ m prov id2 k, (∀ p ∈ prov, p.1 ≠ k) →
      pyGet (mergeProvenance m prov id2) k = pyGet m k) ∧
    (∀ m prov id2 k, (∃ p ∈ prov, p.1 = k) →
      ∃ meta : ProvMeta, (k, meta) ∈ prov ∧
        pyGet (mergeProvenance m prov id2) k =
          some ⟨meta.src, meta.i, (pyGet id2 k).getD []⟩) :=
  ⟨⟨rfl, rfl⟩,
   fun m prov id2 k => mergeProvenance_keeps prov m id2 k,
   fun m prov id2 k => mergeProvenance_untouched prov m id2 k,
   fun m prov id2 k => mergeProvenance_run_key prov m id2 k⟩

theorem provenance_load_and_merge_monotone_witness :
    (pyGet (mergeProvenance [("a", ⟨"s", 0, []⟩)] [("b", ⟨"t", 1⟩)] []) "a").isSome =
      true ∧
    pyGet (mergeProvenance [("a", ⟨"s", 0, []⟩)] [("b", ⟨"t", 1⟩)] []) "a" =
      pyGet [("a", ⟨"s", 0, []⟩)] "a" ∧
    ∃ meta : ProvMeta, ("b", meta) ∈ [("b", (⟨"t", 1⟩ : ProvMeta))] ∧
      pyGet (mergeProvenance [("a", ⟨"s", 0, []⟩)] [("b", ⟨"t", 1⟩)] []) "b" =
        some ⟨meta.src, meta.i, (pyGet [] "b").getD []⟩ :=
  ⟨provenance_load_and_merge_monotone.2.1 [("a", ⟨"s", 0, []⟩)] [("b", ⟨"t", 1⟩)] [] "a"
      (by decide),
   provenance_load_and_merge_monotone.2.2.1 [("a", ⟨"s", 0, []⟩)] [("b", ⟨"t", 1⟩)] [] "a"
      (by decide),
   provenance_load_and_merge_monotone.2.2.2 [("a", ⟨"s", 0, []⟩)] [("b", ⟨"t", 1⟩)] [] "b"
      ⟨("b", ⟨"t", 1⟩), by decide, rfl⟩⟩

/-! ### Identifier generation and the gather loop -/

theorem gatherFile_to_upsert (ns : List Nat) (f : String) : ∀ cs : List (List Char),
    ∀ k : Nat, ∀ acc : Gathered,
    (gatherFile ns f cs k acc).to_upsert = acc.to_upsert ++ chunkIdsFrom ns f k cs := by
  intro cs
  induction cs with
  | nil => intro k acc; simp [gatherFile, chunkIdsFrom]
  | cons ch rest ih =>
    intro k acc
    simp only [gatherFile]
    rw [ih]
    simp [chunkIdsFrom, List.append_assoc]

theorem gather_foldl (ft : String → List Char) (ns : List Nat) :
    ∀ files : List String, ∀ acc : Gathered,
    (List.foldl (gatherStep ft ns) acc files).to_upsert =
      acc.to_upsert ++
        (files.map (fun f => chunkIds ns f (chunk_text (ft f) 1000 100))).flatten := by
  intro files
  induction files with
  | nil => intro acc; simp
  | cons f rest ih =>
    intro acc
    simp only [List.foldl_cons, List.map_cons, List.flatten_cons]
    rw [ih]
    by_cases hc : chunk_text (ft f) 1000 100 = []
    · have h1 : gatherStep ft ns acc f = acc := by
        simp [gatherStep, hc]
      rw [h1, hc]
      simp [chunkIds, chunkIdsFrom]
    · have h1 : gatherStep ft ns acc f =
          gatherFile ns f (chunk_text (ft f) 1000 100) 0 acc := by
        simp [gatherStep, hc]
      rw [h1, gatherFile_to_upsert]
      simp [chunkIds, List.append_assoc]

theorem gatherChunks_to_upsert (ft : String → List Char) (files : List String)
    (ns : List Nat) :
    (gatherChunks ft files ns).to_upsert =
      (files.map (fun f => chunkIds ns f (chunk_text (ft f) 1000 100))).flatten := by
  show (List.foldl (gatherStep ft ns) ⟨[], []⟩ files).to_upsert = _
  rw [gather_foldl]
  simp

/-- C1: chunk identifiers are a pure function of (namespace, source,
ordinal): the batch a run builds is exactly, file by file and ordinal by
ordinal, `stable_uuid ns (source ++ "::chunk::" ++ toString ordinal)`
(the shape of `chunkIds`), independent of the embedding service and of the
stored mapping — the environment enters only through the file listing and
each file's extracted text; the namespace is itself the deterministic
fixed-width 32-hex-digit prefix of the SHA-256 digest of the ingestion
root, and `stable_uuid` is the name-based (SHA-1, version-5 UUID)
derivation, with no random or network-dependent input anywhere. -/
theorem chunk_identifier_deterministic :
    (∀ env : Env, ∀ root : String,
      (build_and_upsert env root).to_upsert =
        if env.files root = [] then []
        else ((env.files root).map
          (fun f => chunkIds (ns_of root) f (chunk_text (env.fileText f) 1000 100))).flatten) ∧
    (∀ root : String,
      ns_of root = hexPairsToBytes ((sha256Hex (utf8Encode root)).take 32)) ∧
    (∀ ns : List Nat, ∀ key : String,
      stable_uuid ns key = uuidStr (uuid5bytes ns key)) := by
  refine ⟨?_, fun root => rfl, fun ns key => rfl⟩
  intro env root
  by_cases hf : env.files root = []
  · rw [if_pos hf]
    simp only [build_and_upsert]
    rw [if_pos hf]
  · rw [if_neg hf]
    simp only [build_and_upsert]
    rw [if_neg hf]
    by_cases hg : (gatherChunks env.fileText (env.files root) (ns_of root)).to_upsert = []
    · rw [if_pos hg]
      exact gatherChunks_to_upsert env.fileText (env.files root) (ns_of root)
    · rw [if_neg hg]
      cases hu : upsert_docs env.embed
          (gatherChunks env.fileText (env.files root) (ns_of root)).to_upsert with
      | error e => exact gatherChunks_to_upsert env.fileText (env.files root) (ns_of root)
      | ok id2 => exact gatherChunks_to_upsert env.fileText (env.files root) (ns_of root)

/-! ### The upsert path of the pipeline -/

/-- C5: evaluation of the pipeline on a concrete unchanged root with a
working embedding service: the run deterministically builds its chunk
batch (`to_upsert` is non-empty), but `upsert_docs` raises the `NameError`
on the undefined global `IndexDatapoint` before any upsert, so no vector is
ever written and no provenance mapping is ever saved — the observable
idempotence the claim describes can never be exhibited by this code, on
this run or any re-run (the stored mapping is left untouched, so a second
run starts from the identical state and fails identically). -/
theorem build_and_upsert_idempotence_code_bug :
    (build_and_upsert envIdem "gs://bucket/docs").result =
      .error (.nameError "IndexDatapoint") ∧
    (build_and_upsert envIdem "gs://bucket/docs").saved = none ∧
    (build_and_upsert envIdem "gs://bucket/docs").to_upsert ≠ [] :=
  ⟨rfl, rfl, by decide⟩

/-- C8 counterexample: a root with two readable documents and an embedding
service whose call raises: the run ends with the embedding error and saves
no provenance mapping at all — the second document is not embedded,
upserted, or recorded, contradicting the claim that an embedding failure
is scoped to a single document. -/
theorem embed_failure_counterexample :
    (build_and_upsert envTwoDocs "gs://bucket/docs").saved = none ∧
    (build_and_upsert envTwoDocs "gs://bucket/docs").result =
      .error (.embedError "quota exceeded") :=
  ⟨rfl, rfl⟩

/-- C8 amended: all chunks of all documents are embedded in one
`embed_texts` call inside the single `upsert_docs` call, so an embedding
failure aborts the entire run: the run reports the embedding error, and
the provenance mapping is not saved — no document of the run is recorded. -/
theorem embed_failure_aborts_run (env : Env) (root : String) (e : String)
    (hf : env.files root ≠ [])
    (hne : (gatherChunks env.fileText (env.files root) (ns_of root)).to_upsert ≠ [])
    (hembed : env.embed
      ((gatherChunks env.fileText (env.files root) (ns_of root)).to_upsert.map Prod.snd) =
      .error e) :
    (build_and_upsert env root).result = .error (.embedError e) ∧
    (build_and_upsert env root).saved = none := by
  simp only [build_and_upsert, upsert_docs]
  rw [if_neg hf, if_neg hne, if_neg hne, hembed]
  exact ⟨rfl, rfl⟩

theorem embed_failure_aborts_run_witness :
    (build_and_upsert envTwoDocs "gs://bucket/docs").result =
      .error (.embedError "quota exceeded") ∧
    (build_and_upsert envTwoDocs "gs://bucket/docs").saved = none :=
  embed_failure_aborts_run envTwoDocs "gs://bucket/docs" "quota exceeded"
    (by decide) (by decide) rfl

/-- C10: for every non-empty chunk list, once the embedding call has
returned, `upsert_docs` raises a `NameError` before performing any
embedding-to-index upsert — on the undefined global `IndexDatapoint` in
the datapoint loop, or on the undefined global `MatchingEngineIndex` when
the embedding list was empty so the `zip` loop body never ran; with an
empty chunk list it returns the empty dictionary without error; and
consequently `build_and_upsert` fails (its result is a raised error and
nothing is saved) on every root whose files yield at least one chunk. -/
theorem upsert_docs_name_error :
    (∀ embed : List (List Char) → Except String (List (List Int)),
      ∀ chunks : List (String × List Char), chunks ≠ [] →
      ∀ vecs : List (List Int), embed (chunks.map Prod.snd) = .ok vecs →
        upsert_docs embed chunks = .error (.nameError
          (if vecs = [] then "MatchingEngineIndex" else "IndexDatapoint"))) ∧
    (∀ embed : List (List Char) → Except String (List (List Int)),
      upsert_docs embed [] = .ok []) ∧
    (∀ env : Env, ∀ root : String, env.files root ≠ [] →
      (gatherChunks env.fileText (env.files root) (ns_of root)).to_upsert ≠ [] →
      (∃ pe : PipeError, (build_and_upsert env root).result = .error pe) ∧
      (build_and_upsert env root).saved = none) := by
  refine ⟨?_, fun embed => rfl, ?_⟩
  · intro embed chunks hne vecs hok
    simp only [upsert_docs]
    rw [if_neg hne, hok]
    by_cases hv : vecs = []
    · subst hv
      rfl
    · show (if vecs = [] then Except.error (PipeError.nameError "MatchingEngineIndex")
          else Except.error (PipeError.nameError "IndexDatapoint")) =
        Except.error (PipeError.nameError
          (if vecs = [] then "MatchingEngineIndex" else "IndexDatapoint"))
      rw [if_neg hv, if_neg hv]
  · intro env root hf hne
    have hup : ∃ pe : PipeError, upsert_docs env.embed
        (gatherChunks env.fileText (env.files root) (ns_of root)).to_upsert =
        .error pe := by
      simp only [upsert_docs]
      rw [if_neg hne]
      cases hembed : env.embed
          ((gatherChunks env.fileText (env.files root) (ns_of root)).to_upsert.map
            Prod.snd) with
      | error e => exact ⟨.embedError e, rfl⟩
      | ok vecs =>
        by_cases hv : vecs = []
        · subst hv
          exact ⟨.nameError "MatchingEngineIndex", rfl⟩
        · refine ⟨.nameError "IndexDatapoint", ?_⟩
          show (if vecs = [] then Except.error (PipeError.nameError "MatchingEngineIndex")
              else Except.error (PipeError.nameError "IndexDatapoint")) =
            Except.error (PipeError.nameError "IndexDatapoint")
          rw [if_neg hv]
    obtain ⟨pe, hup⟩ := hup
    simp only [build_and_upsert]
    rw [if_neg hf, if_neg hne, hup]
    exact ⟨⟨pe, rfl⟩, rfl⟩

theorem upsert_docs_name_error_witness :
    upsert_docs embedOk [("id0", String.toList "hi")] =
      .error (.nameError "IndexDatapoint") ∧
    upsert_docs embedOk [] = .ok [] ∧
    ((∃ pe : PipeError, (build_and_upsert envIdem "gs://bucket/docs").result =
        .error pe) ∧
      (build_and_upsert envIdem "gs://bucket/docs").saved = none) := by
  refine ⟨?_, upsert_docs_name_error.2.1 embedOk,
    upsert_docs_name_error.2.2 envIdem "gs://bucket/docs" (by decide) (by decide)⟩
  have h := upsert_docs_name_error.1 embedOk [("id0", String.toList "hi")]
    (by decide) [[0]] rfl
  simpa using h

end Parcel
